import Mathlib

/-!
# go-lazada: request signing, request construction, responses and token validity

A shallow embedding of `lazada/client.go` and `lazada/auth.go`.

* A Go `string` is its sequence of bytes, `List Nat` with every element below 256.
  All functions are total on `List Nat`; the concrete inputs used below are ASCII.
* A `url.Values` (`map[string][]string`) is an association list; the order of the
  list is the (unspecified) iteration order of the Go map, and a real map has
  pairwise distinct keys (`Values.keys v` has no duplicates).
* Standard-library functions the program calls (`crypto/sha256`, `crypto/hmac`,
  `encoding/hex`, `net/url`, `sort`, `strings`, `fmt`, `time`) are modelled from their
  published behaviour: FIPS 180-4, RFC 2104 and the Go documentation.
* `time.Now()` is an explicit argument.
-/

namespace Lazada

/-! ## Strings -/

/-- A Go string: an immutable sequence of bytes. -/
abbrev GoString := List Nat

/-- UTF-8 encoding of one code point, as the Go compiler stores string literals. -/
def utf8 (c : Char) : List Nat :=
  let n := c.toNat
  if n < 0x80 then [n]
  else if n < 0x800 then [0xC0 + n / 64, 0x80 + n % 64]
  else if n < 0x10000 then [0xE0 + n / 4096, 0x80 + n / 64 % 64, 0x80 + n % 64]
  else [0xF0 + n / 262144, 0x80 + n / 4096 % 64, 0x80 + n / 64 % 64, 0x80 + n % 64]

/-- The bytes of a string literal. -/
def str (s : String) : GoString := s.data.flatMap utf8

/-- Go's `<=` on strings: byte-wise lexicographic comparison. -/
def strLe : GoString → GoString → Bool
  | [], _ => true
  | _ :: _, [] => false
  | a :: as, b :: bs => if a < b then true else if a = b then strLe as bs else false

/-- Go's `<` on strings. -/
def strLt (a b : GoString) : Bool := strLe a b && !(strLe b a)

/-- The relation `sort.Strings` sorts by. -/
def StrLE (a b : GoString) : Prop := strLe a b = true

instance : DecidableRel StrLE := fun a b => inferInstanceAs (Decidable (strLe a b = true))

/-- Go's `sort.Strings`: the argument in ascending byte-wise order. -/
def sortStrings (keys : List GoString) : List GoString := List.insertionSort StrLE keys

/-- Go's `strings.HasPrefix`. -/
def HasPrefix : GoString → GoString → Bool
  | _, [] => true
  | [], _ :: _ => false
  | a :: s, b :: p => if a = b then HasPrefix s p else false

/-- Go's `strings.TrimPrefix`: `s` without the leading `p`, or `s` itself when `p` does not lead it. -/
def TrimPrefix (s p : GoString) : GoString :=
  if HasPrefix s p then s.drop p.length else s

/-- Go's `strings.ToUpper` on ASCII text (the only text this program upper-cases is
hexadecimal): the letters `a`..`z` move to `A`..`Z`, every other byte stays. -/
def ToUpper (s : GoString) : GoString :=
  s.map (fun c => if 97 ≤ c ∧ c ≤ 122 then c - 32 else c)

/-- The digit table of `encoding/hex`. -/
def hextable : GoString := str "0123456789abcdef"

/-- Go's `hex.EncodeToString`: two lower-case hexadecimal digits per byte. -/
def EncodeToString (src : List Nat) : GoString :=
  src.flatMap (fun v => [hextable.getD (v / 16) 0, hextable.getD (v % 16) 0])

/-- The digit table of `net/url`. -/
def upperhex : GoString := str "0123456789ABCDEF"

/-- The function `shouldEscape(c, encodeQueryComponent)` of `net/url`: everything but the unreserved
characters (letters, digits, `-`, `_`, `.`, `~`) is escaped in a query component. -/
def shouldEscape (c : Nat) : Bool :=
  !((97 ≤ c && c ≤ 122) || (65 ≤ c && c ≤ 90) || (48 ≤ c && c ≤ 57) ||
    c = 45 || c = 95 || c = 46 || c = 126)

/-- Go's `url.QueryEscape`: a space becomes `+`, an escaped byte becomes `%XX`. -/
def QueryEscape (s : GoString) : GoString :=
  s.flatMap (fun c =>
    if c = 32 then [43]
    else if shouldEscape c then [37, upperhex.getD (c / 16) 0, upperhex.getD (c % 16) 0]
    else [c])

/-- Go's `fmt.Sprintf("%d", x)`: the decimal rendering of an integer. -/
def Sprintf_d (x : Int) : GoString :=
  if x < 0 then 45 :: str (Nat.repr x.natAbs) else str (Nat.repr x.toNat)

/-- The value of an `int64` computation: the integer reduced to the range
`-2^63 .. 2^63 - 1` (two's complement). -/
def wrapInt64 (x : Int) : Int := (x + 2 ^ 63) % 2 ^ 64 - 2 ^ 63

/-! ## SHA-256 (FIPS 180-4) and HMAC (RFC 2104) -/

namespace SHA256

/-- The 64 round constants. -/
def K : List Nat :=
  [0x428A2F98, 0x71374491, 0xB5C0FBCF, 0xE9B5DBA5,
   0x3956C25B, 0x59F111F1, 0x923F82A4, 0xAB1C5ED5,
   0xD807AA98, 0x12835B01, 0x243185BE, 0x550C7DC3,
   0x72BE5D74, 0x80DEB1FE, 0x9BDC06A7, 0xC19BF174,
   0xE49B69C1, 0xEFBE4786, 0x0FC19DC6, 0x240CA1CC,
   0x2DE92C6F, 0x4A7484AA, 0x5CB0A9DC, 0x76F988DA,
   0x983E5152, 0xA831C66D, 0xB00327C8, 0xBF597FC7,
   0xC6E00BF3, 0xD5A79147, 0x06CA6351, 0x14292967,
   0x27B70A85, 0x2E1B2138, 0x4D2C6DFC, 0x53380D13,
   0x650A7354, 0x766A0ABB, 0x81C2C92E, 0x92722C85,
   0xA2BFE8A1, 0xA81A664B, 0xC24B8B70, 0xC76C51A3,
   0xD192E819, 0xD6990624, 0xF40E3585, 0x106AA070,
   0x19A4C116, 0x1E376C08, 0x2748774C, 0x34B0BCB5,
   0x391C0CB3, 0x4ED8AA4A, 0x5B9CCA4F, 0x682E6FF3,
   0x748F82EE, 0x78A5636F, 0x84C87814, 0x8CC70208,
   0x90BEFFFA, 0xA4506CEB, 0xBEF9A3F7, 0xC67178F2]

/-- Addition of 32-bit words. -/
def add32 (x y : Nat) : Nat := (x + y) % 2 ^ 32

/-- Rotation of a 32-bit word to the right by `n` bits. -/
def rotr (n x : Nat) : Nat := (x >>> n ||| x <<< (32 - n)) % 2 ^ 32

/-- Bitwise complement of a 32-bit word. -/
def not32 (x : Nat) : Nat := (2 ^ 32 - 1) ^^^ x

/-- The function `Ch`. -/
def ch (x y z : Nat) : Nat := (x &&& y) ^^^ (not32 x &&& z)

/-- The function `Maj`. -/
def maj (x y z : Nat) : Nat := (x &&& y) ^^^ (x &&& z) ^^^ (y &&& z)

/-- The function `Σ0`. -/
def bsig0 (x : Nat) : Nat := rotr 2 x ^^^ rotr 13 x ^^^ rotr 22 x

/-- The function `Σ1`. -/
def bsig1 (x : Nat) : Nat := rotr 6 x ^^^ rotr 11 x ^^^ rotr 25 x

/-- The function `σ0`. -/
def ssig0 (x : Nat) : Nat := rotr 7 x ^^^ rotr 18 x ^^^ x >>> 3

/-- The function `σ1`. -/
def ssig1 (x : Nat) : Nat := rotr 17 x ^^^ rotr 19 x ^^^ x >>> 10

/-- The eight working variables, also the chaining value. -/
structure State where
  a : Nat
  b : Nat
  c : Nat
  d : Nat
  e : Nat
  f : Nat
  g : Nat
  h : Nat

/-- The initial hash value. -/
def init : State :=
  ⟨0x6A09E667, 0xBB67AE85, 0x3C6EF372, 0xA54FF53A,
   0x510E527F, 0x9B05688C, 0x1F83D9AB, 0x5BE0CD19⟩

/-- Big-endian 32-bit words of a block. -/
def words : List Nat → List Nat
  | b0 :: b1 :: b2 :: b3 :: rest =>
      (b0 % 256 * 2 ^ 24 + b1 % 256 * 2 ^ 16 + b2 % 256 * 2 ^ 8 + b3 % 256) :: words rest
  | _ => []

/-- The schedule word that follows a window of sixteen: `σ1(w14) + w9 + σ0(w1) + w0`. -/
def nextW (w : List Nat) : Nat :=
  add32 (add32 (add32 (ssig1 (w.getD 14 0)) (w.getD 9 0)) (ssig0 (w.getD 1 0))) (w.getD 0 0)

/-- One round with constant `k` and schedule word `w`. -/
def round (s : State) (k w : Nat) : State :=
  let t1 := add32 (add32 (add32 (add32 s.h (bsig1 s.e)) (ch s.e s.f s.g)) k) w
  let t2 := add32 (bsig0 s.a) (maj s.a s.b s.c)
  ⟨add32 t1 t2, s.a, s.b, s.c, add32 s.d t1, s.e, s.f, s.g⟩

/-- The rounds for the constants `ks`, with `w` the sliding window of the message schedule. -/
def rounds : List Nat → List Nat → State → State
  | [], _, s => s
  | k :: ks, w, s => rounds ks (w.drop 1 ++ [nextW w]) (round s k (w.getD 0 0))

/-- The compression of one 64-byte block into the chaining value. -/
def compress (s : State) (block : List Nat) : State :=
  let r := rounds K (words block) s
  ⟨add32 s.a r.a, add32 s.b r.b, add32 s.c r.c, add32 s.d r.d,
   add32 s.e r.e, add32 s.f r.f, add32 s.g r.g, add32 s.h r.h⟩

/-- The `n` low bytes of `x`, most significant first. -/
def be (n : Nat) (x : Nat) : List Nat :=
  (List.range n).reverse.map (fun i => x >>> (8 * i) % 256)

/-- The padded message: `0x80`, zeros, and the bit length in 64 bits. -/
def pad (msg : List Nat) : List Nat :=
  msg ++ 0x80 :: List.replicate ((119 - msg.length % 64) % 64) 0 ++ be 8 (8 * msg.length % 2 ^ 64)

/-- The chaining value after the first `n` blocks of `m`. -/
def blocks : Nat → List Nat → State → State
  | 0, _, s => s
  | n + 1, m, s => blocks n (m.drop 64) (compress s (m.take 64))

/-- The 32-byte digest: `sha256.Sum256`. -/
def sum (msg : List Nat) : List Nat :=
  let p := pad msg
  let s := blocks (p.length / 64) p init
  [s.a, s.b, s.c, s.d, s.e, s.f, s.g, s.h].flatMap (be 4)

end SHA256

/-- The digest of `hmac.New(sha256.New, key)` after `Write(msg)` and `Sum(nil)`:
`H((K ⊕ opad) ‖ H((K ⊕ ipad) ‖ msg))`, with a key longer than the block hashed first
and the key padded with zeros to 64 bytes. -/
def hmacSHA256 (key msg : List Nat) : List Nat :=
  let k0 := if key.length > 64 then SHA256.sum key else key
  let k := k0 ++ List.replicate (64 - k0.length) 0
  SHA256.sum (k.map (fun b => b ^^^ 0x5c) ++ SHA256.sum (k.map (fun b => b ^^^ 0x36) ++ msg))

/-! ## url.Values -/

/-- The type `url.Values`, a `map[string][]string`, as an association list. -/
abbrev Values := List (GoString × List GoString)

/-- The keys of the map, in iteration order. -/
def Values.keys (v : Values) : List GoString := v.map Prod.fst

/-- The map access `v[key]`: the values of the key, the nil slice when the key is absent. -/
def Values.index : Values → GoString → List GoString
  | [], _ => []
  | (k, vs) :: rest, key => if k = key then vs else Values.index rest key

/-- The method `Values.Set`: the key gets the single value, replacing what it had. -/
def Values.Set : Values → GoString → GoString → Values
  | [], key, value => [(key, [value])]
  | (k, vs) :: rest, key, value =>
      if k = key then (key, [value]) :: rest else (k, vs) :: Values.Set rest key value

/-- The method `Values.Del`: the map without the key. -/
def Values.Del (v : Values) (key : GoString) : Values := v.filter (fun e => e.1 ≠ key)

/-- The method `Values.Encode`: `key=value` pairs, both escaped, sorted by key and joined by `&`. -/
def Values.Encode (v : Values) : GoString :=
  (sortStrings v.keys).foldl (fun buf k =>
    (v.index k).foldl (fun buf val =>
      (if buf = [] then buf else buf ++ [38]) ++ QueryEscape k ++ [61] ++ QueryEscape val) buf) []

/-! ## The client -/

/-- The fields of `Client` that requests depend on. -/
structure Client where
  secret : GoString
  appKey : GoString
  accessToken : GoString

/-- The bytes `Client.Signature` signs (the buffer `buf` of the source): the raw path, then for
each key of the sorted key list and each of its values the escaped key and the raw value. -/
def Client.signed (api : GoString) (val : Values) : GoString :=
  (sortStrings val.keys).foldl (fun buf k =>
    (val.index k).foldl (fun buf v => buf ++ QueryEscape k ++ v) buf) api

/-- The method `Client.Signature`. The request body is an argument of the function and is not read:
the source has the lines that would append it commented out. -/
def Client.Signature (c : Client) (api : GoString) (val : Values) (_body : Option GoString) :
    GoString :=
  ToUpper (EncodeToString (hmacSHA256 c.secret (Client.signed api val)))

/-- A `time.Time` instant: nanoseconds since the Unix epoch. -/
structure Time where
  ns : Int
deriving DecidableEq

/-- The method `Time.Unix`: whole seconds since the epoch. -/
def Time.Unix (t : Time) : Int := t.ns / 1000000000

/-- The method `Time.UnixMilli`: whole milliseconds since the epoch (the Unix time in milliseconds). -/
def Time.UnixMilli (t : Time) : Int := t.ns / 1000000

/-- The method `Time.Add`: the instant `d` nanoseconds later. -/
def Time.Add (t : Time) (d : Int) : Time := ⟨t.ns + d⟩

/-- The method `Time.After`: whether `t` is strictly later than `u`. -/
def Time.After (t u : Time) : Bool := decide (u.ns < t.ns)

/-- The method `Time.Before`: whether `t` is strictly earlier than `u`. -/
def Time.Before (t u : Time) : Bool := decide (t.ns < u.ns)

/-! ## Requests -/

/-- The parts of a `url.URL` the client reads and writes. -/
structure URL where
  Path : GoString
  RawQuery : GoString

/-- The parts of an `http.Request` the client reads and writes. `Body` is `none` for a nil body. -/
structure Request where
  Method : GoString
  URL : URL
  Body : Option GoString
  ContentType : Option GoString

/-- The errors of `Client.NewRequest`. -/
inductive RequestError where
  | cantParseURL
  | cantEncodeBody
  | badRequest
deriving DecidableEq

/-- Library functions of request construction that are taken as given: URL resolution against
the base URL (`c.BaseURL.Parse`), the XML encoder applied to a body of type `β`, the check
`http.NewRequest` makes of a method and URL, and the parser behind `URL.Query()`. -/
structure Lib (β : Type) where
  parse : GoString → Option URL
  xmlEncode : β → Option GoString
  httpOK : GoString → URL → Bool
  parseQuery : GoString → Values

/-- The constant `xml.Header`. -/
def xmlHeader : GoString := str "<?xml version=\"1.0\" encoding=\"UTF-8\"?>\n"

/-- Go's `http.NewRequest`: an empty method means GET. -/
def httpNewRequest {β : Type} (lib : Lib β) (method : GoString) (u : URL)
    (body : Option GoString) : Option Request :=
  let method := if method = [] then str "GET" else method
  if lib.httpOK method u then some ⟨method, u, body, none⟩ else none

/-- The timestamp both request paths write: `fmt.Sprintf("%d", time.Now().Unix()*1000)`,
the product taken in `int64`. -/
def timestamp (now : Time) : GoString := Sprintf_d (wrapInt64 (now.Unix * 1000))

/-- The parameter set `reqParams` of `Client.NewRequest` before it is signed (source lines 159
to 167), `payload` being the XML header followed by the encoded body. -/
def Client.NewRequest.fields (c : Client) (now : Time) (payload : GoString) : Values :=
  let reqParams : Values := []
  let reqParams := reqParams.Set (str "payload") payload
  let reqParams := reqParams.Set (str "sign_method") (str "sha256")
  let reqParams := reqParams.Set (str "timestamp") (timestamp now)
  let reqParams := reqParams.Set (str "app_key") c.appKey
  if c.accessToken ≠ [] then reqParams.Set (str "access_token") c.accessToken else reqParams

/-- The parameter set `reqParams` that `Client.NewRequest` encodes into the body (source lines
159 to 169), `path` being the path of the resolved URL. -/
def Client.NewRequest.params (c : Client) (now : Time) (path payload : GoString) : Values :=
  let reqParams := Client.NewRequest.fields c now payload
  let sig := c.Signature (TrimPrefix path (str "/rest")) reqParams (some reqParams.Encode)
  reqParams.Set (str "sign") sig

/-- The reference `Client.NewRequest` resolves: `rest` is put in front of a reference that
does not start with `https` (source lines 137 to 139). -/
def restReference (urlStr : GoString) : GoString :=
  if !HasPrefix urlStr (str "https") then str "rest" ++ urlStr else urlStr

/-- The method `Client.NewRequest`. -/
def Client.NewRequest {β : Type} (c : Client) (lib : Lib β) (now : Time)
    (method urlStr : GoString) (body : Option β) : Except RequestError Request :=
  match lib.parse (restReference urlStr) with
  | none => .error .cantParseURL
  | some u =>
    match body with
    | some b =>
      match lib.xmlEncode b with
      | none => .error .cantEncodeBody
      | some encoded =>
        let reqParams := Client.NewRequest.params c now u.Path (xmlHeader ++ encoded)
        match httpNewRequest lib method u (some reqParams.Encode) with
        | none => .error .badRequest
        | some req =>
          .ok { req with
            ContentType := some (str "application/x-www-form-urlencoded;charset=utf-8") }
    | none =>
      match httpNewRequest lib method u none with
      | none => .error .badRequest
      | some req => .ok req

/-- The query `q` of `Client.Do` before it is signed (source lines 197 to 204), from the
query parsed off the request URL. -/
def Client.Do.fields (c : Client) (now : Time) (q : Values) : Values :=
  let q := q.Set (str "sign_method") (str "sha256")
  let q := q.Set (str "timestamp") (timestamp now)
  let q := q.Set (str "app_key") c.appKey
  if c.accessToken ≠ [] then q.Set (str "access_token") c.accessToken else q

/-- The query `q` that `Client.Do` encodes into the URL of a request without body (source
lines 197 to 216); the body handed to `Signature` is nil there. -/
def Client.Do.query (c : Client) (now : Time) (path : GoString) (q : Values) : Values :=
  let q := Client.Do.fields c now q
  let sig := c.Signature (TrimPrefix path (str "/rest")) q none
  q.Set (str "sign") sig

/-- The request `Client.Do` hands to the HTTP client (source lines 194 to 219): a request
without body gets the signed query, a request with a body gets the encoding of the nil
`url.Values`, the empty string. -/
def Client.Do.outgoing {β : Type} (c : Client) (lib : Lib β) (now : Time) (req : Request) :
    Request :=
  let q : Values :=
    if req.Body.isNone then Client.Do.query c now req.URL.Path (lib.parseQuery req.URL.RawQuery)
    else []
  { req with URL := { req.URL with RawQuery := q.Encode } }

/-! ## Tokens -/

/-- The type `Token` of `auth.go`. -/
structure Token where
  AccountID : GoString
  Account : GoString
  Country : GoString
  AccountPlatform : GoString
  AccessToken : GoString
  RefreshToken : GoString
  ExpiresIn : Int
  RefreshExpiresIn : Int
  retrievedAt : Time

/-- The method `Token.calculateExpires`: `time.Second * time.Duration(exp)` is an `int64` product. -/
def Token.calculateExpires (t : Token) (exp : Int) : Time :=
  t.retrievedAt.Add (wrapInt64 (1000000000 * exp))

/-- The method `Token.ExpiresAt`. -/
def Token.ExpiresAt (t : Token) : Time := t.calculateExpires t.ExpiresIn

/-- The method `Token.RefreshExpiresAt`. -/
def Token.RefreshExpiresAt (t : Token) : Time := t.calculateExpires t.RefreshExpiresIn

/-- The method `Token.Valid`, with the reading of `time.Now()` as `now`. -/
def Token.Valid (t : Token) (now : Time) : Bool :=
  if t.AccessToken = [] ∨ now.After t.ExpiresAt then false else true

/-! ## The wording of the specification -/

namespace Spec

/-- The upper-case hexadecimal digit of a number below 16. -/
def digit (d : Nat) : Nat := if d < 10 then 48 + d else 55 + d

/-- The uppercase hexadecimal rendering of a byte string. -/
def upperHex (b : List Nat) : GoString := b.flatMap (fun v => [digit (v / 16), digit (v % 16)])

/-- The message `M` for the keys `ks` taken in the given order: the raw path, then for each key
and each of its values in stored order the escaped key and the unescaped value. -/
def message (api : GoString) (val : Values) (ks : List GoString) : GoString :=
  api ++ ks.flatMap (fun k => (val.index k).flatMap (fun v => QueryEscape k ++ v))

end Spec

/-! ## Test data of `client_test.go` -/

/-- The client of `TestClient_Signature`. -/
def testClient : Client := ⟨str "testsecretnotarealsecret", str "123456", []⟩

/-- The query of `TestClient_Signature`, in the order of the URL. -/
def brandsQuery : Values :=
  [(str "offset", [str "0"]), (str "limit", [str "100"]), (str "app_key", [str "123456"]),
   (str "sign_method", [str "sha256"]), (str "timestamp", [str "1537324254708"])]

/-- The sorted keys of `brandsQuery`. -/
def brandsKeys : List GoString :=
  [str "app_key", str "limit", str "offset", str "sign_method", str "timestamp"]

/-- Library functions for the examples: a reference resolves to itself as a path, a body of
bytes encodes to itself, every method is accepted, and the raw query `sign=x` parses to the
one parameter `sign` with the value `x` (any other raw query to no parameter). -/
def exampleLib : Lib GoString where
  parse := fun s => some ⟨str "/" ++ s, []⟩
  xmlEncode := fun b => some b
  httpOK := fun _ _ => true
  parseQuery := fun raw => if raw = str "sign=x" then [(str "sign", [str "x"])] else []

/-- A GET request for `/rest/brands/get?sign=x`, without body. -/
def requestWithSign : Request := ⟨str "GET", ⟨str "/rest/brands/get", str "sign=x"⟩, none, none⟩

/-- A GET request for `/rest/brands/get`, without body and without query. -/
def requestPlain : Request := ⟨str "GET", ⟨str "/rest/brands/get", []⟩, none, none⟩

/-- A clock reading of 1537324254.708 seconds after the epoch. -/
def clock708 : Time := ⟨1537324254708000000⟩

/-- A token retrieved at the epoch that expires after 3600 seconds. -/
def hourToken : Token := ⟨[], [], [], [], str "token", [], 3600, 0, ⟨0⟩⟩

/-- The payload of `TestClient_SignatureWithPayload`, as `URL.Query()` decodes it. -/
def createProductPayload : GoString :=
  ["<?xml version=\"1.0\" encoding=\"UTF-8\"?>\n",
   "<Request>\n",
   "    <Product>\n",
   "        <Attributes>\n",
   "            <name>test product creation</name>\n",
   "            <brand>Kid Basix</brand>\n",
   "            <material>Cotton</material>\n",
   "            <waterproof>waterproof</waterproof>\n",
   "            <warranty_type>Local (Singapore) manufacturer warranty</warranty_type>\n",
   "            <warranty>1 month</warranty>\n",
   "            <short_description>test product highlights</short_description>\n",
   "            <description>test product description</description>\n",
   "            <model>test model</model>\n",
   "            <recommended_gender>Men</recommended_gender>\n",
   "            <Hazmat>Battery, Flammable</Hazmat>\n",
   "        </Attributes>\n",
   "        <PrimaryCategory>10001958</PrimaryCategory>\n",
   "        <Skus>\n",
   "            <Sku>\n",
   "                <Images>\n",
   "                    <Image>https://sg-live.slatic.net/original/b731a8098df7d606ab2e56efc650afcb.jpg</Image>\n",
   "                </Images>\n",
   "                <SellerSku>test-product-creation-for-api</SellerSku>\n",
   "                <quantity>1</quantity>\n",
   "                <package_length>1</package_length>\n",
   "                <package_content>test whats in the box</package_content>\n",
   "                <package_width>1</package_width>\n",
   "                <package_height>1</package_height>\n",
   "                <color_family>Black</color_family>\n",
   "                <special_price>0.0</special_price>\n",
   "                <price>23.0</price>\n",
   "                <package_weight>1</package_weight>\n",
   "            </Sku>\n",
   "        </Skus>\n",
   "    </Product>\n",
   "</Request>"].flatMap str

/-- The client of `TestClient_SignatureWithPayload`: the test client with the token `faketoken`. -/
def tokenClient : Client := ⟨str "testsecretnotarealsecret", str "123456", str "faketoken"⟩

/-- The query of `TestClient_SignatureWithPayload`, in the order of the URL. -/
def createProductQuery : Values :=
  [(str "payload", [createProductPayload]), (str "app_key", [str "123456"]),
   (str "sign_method", [str "sha256"]), (str "timestamp", [str "1539870185083"]),
   (str "access_token", [str "faketoken"])]

/-! ## Responses -/

/-- The type `ErrorDetails` of `error.go`. -/
structure ErrorDetails where
  Field : GoString
  Message : GoString
deriving DecidableEq

/-- The type `LazadaResponse`, the envelope. `Data` is the raw JSON text of the `data` field,
empty when the field is absent; `Typ` is the field `Type`. -/
structure LazadaResponse where
  Code : GoString
  Data : GoString
  RequestID : GoString
  Typ : GoString
  Message : GoString
  Detail : List ErrorDetails
deriving DecidableEq

/-- The parts of an `http.Response` the client reads: the status code and what
`ioutil.ReadAll` gives for the body, `none` when the read fails. -/
structure Response where
  StatusCode : Int
  Body : Option GoString
deriving DecidableEq

/-- The type `ErrorResponse` of `error.go`; `Typ` is the field `Type`. -/
structure ErrorResponse where
  Response : Response
  Code : GoString
  Typ : GoString
  Message : GoString
  RequestID : GoString
  Detail : List ErrorDetails
deriving DecidableEq

/-- The errors of `encoding/json` the client tells apart: the value `io.EOF`, the syntax error
`unexpected end of JSON input`, and every other error. -/
inductive JsonError where
  | EOF
  | unexpectedEnd
  | other (msg : GoString)
deriving DecidableEq

/-- The errors `CheckResponse` and `Client.Do` return: the error of the transport, the wrapped
errors `unable to read body`, `unable to decode response` and `unable to unmarshal into
struct`, and an `ErrorResponse`. -/
inductive Error where
  | transport (msg : GoString)
  | readBody
  | decodeResponse (e : JsonError)
  | response (e : ErrorResponse)
  | unmarshalStruct (e : JsonError)
deriving DecidableEq

/-- The decoders of `encoding/json` for input that is not empty, taken as given:
`json.Unmarshal` into a fresh `LazadaResponse`, into an `ErrorResponse` (the struct after the
call, its error being dropped by the caller) and into a destination of type `α` (the
destination after the call and the error). -/
structure JsonLib (α : Type) where
  unmarshalEnvelope : GoString → Except JsonError LazadaResponse
  unmarshalErrorResponse : GoString → ErrorResponse → ErrorResponse
  unmarshalValue : GoString → α → α × Option JsonError

/-- Go's `json.Unmarshal(data, lazResp)`: input of length zero is the syntax error
`unexpected end of JSON input`. -/
def jsonUnmarshalEnvelope {α : Type} (json : JsonLib α) (data : GoString) :
    Except JsonError LazadaResponse :=
  if data = [] then .error .unexpectedEnd else json.unmarshalEnvelope data

/-- Go's `json.Unmarshal(data, v)`: input of length zero is the syntax error
`unexpected end of JSON input`, reported before the destination is touched. -/
def jsonUnmarshal {α : Type} (json : JsonLib α) (data : GoString) (v : α) :
    α × Option JsonError :=
  if data = [] then (v, some .unexpectedEnd) else json.unmarshalValue data v

/-- The function `CheckResponse`: the envelope and no error, or no envelope and an error. -/
def CheckResponse {α : Type} (json : JsonLib α) (r : Response) : Except Error LazadaResponse :=
  if 200 ≤ r.StatusCode ∧ r.StatusCode ≤ 299 then
    match r.Body with
    | none => .error .readBody
    | some data =>
      match jsonUnmarshalEnvelope json data with
      | .error decErr => .error (.decodeResponse decErr)
      | .ok lazResp =>
        if lazResp.Code = str "0" then .ok lazResp
        else .error (.response ⟨r, lazResp.Code, lazResp.Typ, lazResp.Message,
          lazResp.RequestID, lazResp.Detail⟩)
  else
    let errorResponse : ErrorResponse := ⟨r, [], [], [], [], []⟩
    match r.Body with
    | none => .error (.response errorResponse)
    | some data =>
      .error (.response (if data = [] then errorResponse
        else json.unmarshalErrorResponse data errorResponse))

/-- The destination `v` of `Client.Do`: nil, an `io.Writer` with what has been written to it,
or a pointer to a value of type `α`. -/
inductive Dest (α : Type) where
  | nil
  | writer (written : GoString)
  | typed (value : α)
deriving DecidableEq

/-- The method `Client.Do`, with the HTTP client as the function `transport`: the envelope,
the error and the destination after the call. -/
def Client.Do {β α : Type} (c : Client) (lib : Lib β) (json : JsonLib α) (now : Time)
    (transport : Request → Except GoString Response) (req : Request) (v : Dest α) :
    Option LazadaResponse × Option Error × Dest α :=
  match transport (Client.Do.outgoing c lib now req) with
  | .error e => (none, some (.transport e), v)
  | .ok resp =>
    match CheckResponse json resp with
    | .error err => (none, some err, v)
    | .ok lazResp =>
      match v with
      | .nil => (some lazResp, none, .nil)
      | .writer w => (some lazResp, none, .writer (w ++ resp.Body.getD []))
      | .typed x =>
        let (x, decErr) := jsonUnmarshal json lazResp.Data x
        let decErr := if decErr = some JsonError.EOF then none else decErr
        (some lazResp, decErr.map Error.unmarshalStruct, .typed x)

/-- The function `SliceString`. -/
def SliceString (ins : List GoString) : GoString :=
  let builder := str "["
  let builder := ins.enum.foldl (fun builder p =>
    let builder := builder ++ str "\"" ++ p.2 ++ str "\""
    if (ins.length : Int) - 1 ≠ (p.1 : Int) then builder ++ str "," else builder) builder
  builder ++ str "]"

namespace Spec

/-- The elements in their order, each wrapped in double quotes, separated by single commas,
no comma after the last. -/
def quotedList : List GoString → GoString
  | [] => []
  | [s] => str "\"" ++ s ++ str "\""
  | s :: t :: rest => str "\"" ++ s ++ str "\"" ++ str "," ++ quotedList (t :: rest)

end Spec

/-- A token with the access token `token`, `ExpiresIn = 9223372037` seconds (more than an
`int64` holds in nanoseconds) retrieved at the epoch. -/
def longToken : Token := ⟨[], [], [], [], str "token", [], 9223372037, 9223372037, ⟨0⟩⟩

/-- The JSON decoder of the examples: the body
`{"code":"0","request_id":"r1"}` is the envelope with code `0`, request id `r1` and no data;
`{"code":"1","message":"bad"}` is the envelope with code `1` and message `bad`; every other
body is malformed. The other decoders change nothing. -/
def exampleJson : JsonLib (List GoString) where
  unmarshalEnvelope := fun data =>
    if data = str "\x7b\"code\":\"0\",\"request_id\":\"r1\"\x7d" then
      .ok ⟨str "0", [], str "r1", [], [], []⟩
    else if data = str "\x7b\"code\":\"1\",\"message\":\"bad\"\x7d" then
      .ok ⟨str "1", [], [], [], str "bad", []⟩
    else .error (.other [])
  unmarshalErrorResponse := fun _ e => e
  unmarshalValue := fun _ v => (v, none)

/-- A response with status 200 and the envelope with code `0` and no data. -/
def okNoData : Response := ⟨200, some (str "\x7b\"code\":\"0\",\"request_id\":\"r1\"\x7d")⟩

/-- A response with status 200 and the envelope with code `1`. -/
def appError : Response := ⟨200, some (str "\x7b\"code\":\"1\",\"message\":\"bad\"\x7d")⟩

/-! ## Lemmas -/

theorem strLe_refl (a : GoString) : strLe a a = true := by
  induction a with
  | nil => rfl
  | cons x xs ih => simp [strLe, ih]

theorem strLe_total (a b : GoString) : strLe a b = true ∨ strLe b a = true := by
  induction a generalizing b with
  | nil => left; rfl
  | cons x xs ih =>
    cases b with
    | nil => right; rfl
    | cons y ys =>
      simp only [strLe]
      rcases Nat.lt_trichotomy x y with h | h | h
      · left; simp [h]
      · subst h; simpa using ih ys
      · right; simp [h]

theorem strLe_trans {a b c : GoString} (hab : strLe a b = true) (hbc : strLe b c = true) :
    strLe a c = true := by
  induction a generalizing b c with
  | nil => rfl
  | cons x xs ih =>
    cases b with
    | nil => simp [strLe] at hab
    | cons y ys =>
      cases c with
      | nil => simp [strLe] at hbc
      | cons z zs =>
        simp only [strLe] at hab hbc ⊢
        by_cases hxy : x < y
        · by_cases hyz : y < z
          · have : x < z := by omega
            simp [this]
          · by_cases hyz2 : y = z
            · subst hyz2; simp [hxy]
            · simp [hyz, hyz2] at hbc
        · by_cases hxy2 : x = y
          · subst hxy2
            by_cases hyz : x < z
            · simp [hyz]
            · by_cases hyz2 : x = z
              · subst hyz2
                simp only [lt_self_iff_false, if_false, if_true] at hab hbc ⊢
                exact ih hab hbc
              · simp [hyz, hyz2] at hbc
          · simp [hxy, hxy2] at hab

theorem strLe_antisymm {a b : GoString} (hab : strLe a b = true) (hba : strLe b a = true) :
    a = b := by
  induction a generalizing b with
  | nil =>
    cases b with
    | nil => rfl
    | cons y ys => simp [strLe] at hba
  | cons x xs ih =>
    cases b with
    | nil => simp [strLe] at hab
    | cons y ys =>
      simp only [strLe] at hab hba
      by_cases hxy : x < y
      · have h1 : ¬ y < x := by omega
        have h2 : ¬ y = x := by omega
        simp [h1, h2] at hba
      · by_cases hxy2 : x = y
        · subst hxy2
          simp only [lt_self_iff_false, if_false, if_true] at hab hba
          rw [ih hab hba]
        · simp [hxy, hxy2] at hab

theorem StrLE_isTotal : IsTotal GoString StrLE := ⟨strLe_total⟩

theorem StrLE_isTrans : IsTrans GoString StrLE := ⟨fun _ _ _ h1 h2 => strLe_trans h1 h2⟩

theorem StrLE_isAntisymm : IsAntisymm GoString StrLE := ⟨fun _ _ h1 h2 => strLe_antisymm h1 h2⟩

theorem sortStrings_sorted (l : List GoString) : (sortStrings l).Sorted StrLE :=
  @List.sorted_insertionSort _ StrLE _ StrLE_isTotal StrLE_isTrans l

theorem sortStrings_perm (l : List GoString) : (sortStrings l).Perm l :=
  List.perm_insertionSort StrLE l

theorem sortStrings_eq_of_perm {l₁ l₂ : List GoString} (h : l₁.Perm l₂) :
    sortStrings l₁ = sortStrings l₂ :=
  @List.eq_of_perm_of_sorted _ StrLE StrLE_isAntisymm _ _
    (((sortStrings_perm l₁).trans h).trans (sortStrings_perm l₂).symm)
    (sortStrings_sorted l₁) (sortStrings_sorted l₂)

theorem sortStrings_eq_of_sorted {l ks : List GoString} (h : ks.Perm l) (hs : ks.Sorted StrLE) :
    sortStrings l = ks :=
  @List.eq_of_perm_of_sorted _ StrLE StrLE_isAntisymm _ _
    ((sortStrings_perm l).trans h.symm) (sortStrings_sorted l) hs

theorem foldl_values (e init : GoString) (vs : List GoString) :
    vs.foldl (fun buf v => buf ++ e ++ v) init = init ++ vs.flatMap (fun v => e ++ v) := by
  induction vs generalizing init with
  | nil => simp
  | cons v vs ih =>
    rw [List.foldl_cons, ih, List.flatMap_cons]
    simp only [List.append_assoc]

theorem foldl_keys (f : GoString → GoString) (g : GoString → List GoString) (init : GoString)
    (ks : List GoString) :
    ks.foldl (fun buf k => (g k).foldl (fun buf v => buf ++ f k ++ v) buf) init
      = init ++ ks.flatMap (fun k => (g k).flatMap (fun v => f k ++ v)) := by
  induction ks generalizing init with
  | nil => simp
  | cons k ks ih =>
    rw [List.foldl_cons, ih, foldl_values, List.flatMap_cons]
    simp only [List.append_assoc]

/-- The bytes one key writes into the signed message. -/
theorem signed_eq (api : GoString) (val : Values) :
    Client.signed api val
      = api ++ (sortStrings val.keys).flatMap
          (fun k => (val.index k).flatMap (fun v => QueryEscape k ++ v)) := by
  unfold Client.signed
  exact foldl_keys QueryEscape val.index api (sortStrings val.keys)

theorem index_of_not_mem {v : Values} {k : GoString} (h : k ∉ v.keys) : v.index k = [] := by
  induction v with
  | nil => rfl
  | cons e rest ih =>
    obtain ⟨k', vs⟩ := e
    simp only [Values.keys, List.map_cons, List.mem_cons, not_or] at h
    have h1 : ¬ k' = k := fun h' => h.1 h'.symm
    simp only [Values.index, h1, if_false]
    exact ih h.2

theorem index_perm {v w : Values} (h : v.Perm w) (hnd : v.keys.Nodup) (k : GoString) :
    v.index k = w.index k := by
  induction h with
  | nil => rfl
  | cons e _ ih =>
    obtain ⟨k', vs⟩ := e
    simp only [Values.keys, List.map_cons, List.nodup_cons] at hnd
    simp only [Values.index]
    split
    · rfl
    · exact ih hnd.2
  | swap e₁ e₂ l =>
    obtain ⟨k₁, vs₁⟩ := e₁
    obtain ⟨k₂, vs₂⟩ := e₂
    simp only [Values.keys, List.map_cons, List.nodup_cons, List.mem_cons, not_or] at hnd
    simp only [Values.index]
    by_cases h1 : k₁ = k
    · by_cases h2 : k₂ = k
      · exact absurd (h2.trans h1.symm) hnd.1.1
      · simp [h1, h2]
    · by_cases h2 : k₂ = k
      · simp [h1, h2]
      · simp [h1, h2]
  | trans h₁ _ ih₁ ih₂ =>
    have hnd2 := (List.Perm.nodup_iff (List.Perm.map Prod.fst h₁)).1 hnd
    exact (ih₁ hnd).trans (ih₂ hnd2)

theorem signed_perm (api : GoString) {v w : Values} (h : v.Perm w) (hnd : v.keys.Nodup) :
    Client.signed api v = Client.signed api w := by
  rw [signed_eq, signed_eq]
  have hk : sortStrings v.keys = sortStrings w.keys :=
    sortStrings_eq_of_perm (List.Perm.map Prod.fst h)
  rw [hk]
  congr 1
  apply List.flatMap_congr
  intro k _
  rw [index_perm h hnd k]

theorem be_length (n x : Nat) : (SHA256.be n x).length = n := by
  simp [SHA256.be]

theorem be_lt (n x : Nat) : ∀ b ∈ SHA256.be n x, b < 256 := by
  intro b hb
  simp only [SHA256.be, List.mem_map] at hb
  obtain ⟨i, _, rfl⟩ := hb
  exact Nat.mod_lt _ (by norm_num)

theorem sum_length (msg : List Nat) : (SHA256.sum msg).length = 32 := by
  simp [SHA256.sum, be_length]

theorem sum_lt (msg : List Nat) : ∀ b ∈ SHA256.sum msg, b < 256 := by
  intro b hb
  simp only [SHA256.sum, List.mem_flatMap] at hb
  obtain ⟨w, _, hw⟩ := hb
  exact be_lt 4 w b hw

theorem hmacSHA256_length (key msg : List Nat) : (hmacSHA256 key msg).length = 32 :=
  sum_length _

theorem hmacSHA256_lt (key msg : List Nat) : ∀ b ∈ hmacSHA256 key msg, b < 256 :=
  sum_lt _

theorem upper_digit : ∀ i, i < 16 →
    ToUpper [hextable.getD i 0] = [Spec.digit i] := by
  decide

theorem upper_hex_byte (v : Nat) (hv : v < 256) :
    ToUpper [hextable.getD (v / 16) 0, hextable.getD (v % 16) 0]
      = [Spec.digit (v / 16), Spec.digit (v % 16)] := by
  have h1 := upper_digit (v / 16) (by omega)
  have h2 := upper_digit (v % 16) (by omega)
  simp only [ToUpper, List.map_cons, List.map_nil, List.cons.injEq, and_true] at h1 h2 ⊢
  exact ⟨h1, h2⟩

theorem ToUpper_append (a b : GoString) : ToUpper (a ++ b) = ToUpper a ++ ToUpper b := by
  simp [ToUpper]

theorem upper_hex_eq (d : List Nat) (hd : ∀ b ∈ d, b < 256) :
    ToUpper (EncodeToString d) = Spec.upperHex d := by
  induction d with
  | nil => rfl
  | cons v d ih =>
    have hv : v < 256 := hd v (List.mem_cons_self _ _)
    have ih2 := ih (fun b hb => hd b (List.mem_cons_of_mem _ hb))
    have e1 : EncodeToString (v :: d)
        = [hextable.getD (v / 16) 0, hextable.getD (v % 16) 0] ++ EncodeToString d := by
      simp [EncodeToString]
    have e2 : Spec.upperHex (v :: d)
        = [Spec.digit (v / 16), Spec.digit (v % 16)] ++ Spec.upperHex d := by
      simp [Spec.upperHex]
    rw [e1, e2, ToUpper_append, upper_hex_byte v hv, ih2]

theorem Signature_eq_upperHex (c : Client) (api : GoString) (val : Values)
    (body : Option GoString) :
    c.Signature api val body = Spec.upperHex (hmacSHA256 c.secret (Client.signed api val)) :=
  upper_hex_eq _ (hmacSHA256_lt _ _)

theorem strLt_le {a b : GoString} (h : strLt a b = true) : StrLE a b := by
  simp only [strLt, Bool.and_eq_true] at h
  exact h.1

theorem strLt_ne {a b : GoString} (h : strLt a b = true) : a ≠ b := by
  intro hab
  subst hab
  simp [strLt, strLe_refl] at h

theorem upperHex_length (d : List Nat) : (Spec.upperHex d).length = 2 * d.length := by
  induction d with
  | nil => rfl
  | cons v d ih =>
    have e2 : Spec.upperHex (v :: d)
        = [Spec.digit (v / 16), Spec.digit (v % 16)] ++ Spec.upperHex d := by
      simp [Spec.upperHex]
    rw [e2, List.length_append, ih]
    simp only [List.length_cons, List.length_nil]
    omega

theorem digit_mem : ∀ i, i < 16 → Spec.digit i ∈ str "0123456789ABCDEF" := by
  decide

/-- C1. For every secret, path and parameter set, `Client.Signature` is the uppercase
hexadecimal rendering of HMAC-SHA256 keyed with the secret over the message made of the raw
path followed, key by key in ascending byte-wise order and value by value in stored order, by
the escaped key and the unescaped value. The ascending key list is any strictly ascending list
with exactly the keys of the map. -/
theorem Signature_is_hmac_of_canonical_message (c : Client) (api : GoString) (val : Values)
    (body : Option GoString) (ks : List GoString)
    (hmap : val.keys.Nodup)
    (hasc : ks.Pairwise (fun a b => strLt a b = true))
    (hkeys : ∀ k, k ∈ ks ↔ k ∈ val.keys) :
    c.Signature api val body
      = Spec.upperHex (hmacSHA256 c.secret (Spec.message api val ks)) := by
  have hnd : ks.Nodup := hasc.imp (fun h => strLt_ne h)
  have hperm : ks.Perm val.keys := (List.perm_ext_iff_of_nodup hnd hmap).2 hkeys
  have hsorted : ks.Sorted StrLE := hasc.imp (fun h => strLt_le h)
  rw [Signature_eq_upperHex, signed_eq, sortStrings_eq_of_sorted hperm hsorted]
  rfl

/-- C2. For a parameter set with pairwise distinct keys, presenting the entries in any
permutation gives the same signature. -/
theorem Signature_perm_invariant (c : Client) (api : GoString) (val val2 : Values)
    (body : Option GoString) (hmap : val.keys.Nodup) (hperm : val.Perm val2) :
    c.Signature api val body = c.Signature api val2 body := by
  unfold Client.Signature
  rw [signed_perm api hperm hmap]

/-- C4. The test vector of `TestClient_Signature`: secret `testsecretnotarealsecret`, path
`/brands/get` and the five parameters give
`1A4D99631F4059D6C5F565C529916DC4D43E141412700EA371B2F396310943CA`. -/
theorem Signature_brands_test_vector :
    testClient.Signature (str "/brands/get") brandsQuery none
      = str "1A4D99631F4059D6C5F565C529916DC4D43E141412700EA371B2F396310943CA" := by
  decide!

/-- The test vector of `TestClient_SignatureWithPayload`: the signature that the platform
accepted for a request with a payload is the signature over the parameters alone. -/
theorem Signature_create_product_test_vector :
    tokenClient.Signature (str "/product/create") createProductQuery none
      = str "4F912A7D7FF2B433CE5141291BA3A6B1DB2C069453927B271E6C67E414DAE1F4" := by
  decide!

/-- C5. The body argument is not part of the signature: any two bodies, no body included,
give the same result. -/
theorem Signature_ignores_body (c : Client) (api : GoString) (val : Values)
    (body1 body2 : Option GoString) :
    c.Signature api val body1 = c.Signature api val body2 := rfl

/-- C6. The signature has exactly 64 characters, each one of `0`..`9` or `A`..`F`. -/
theorem Signature_is_64_upper_hex (c : Client) (api : GoString) (val : Values)
    (body : Option GoString) :
    (c.Signature api val body).length = 64 ∧
      ∀ ch ∈ c.Signature api val body, ch ∈ str "0123456789ABCDEF" := by
  rw [Signature_eq_upperHex]
  refine ⟨?_, ?_⟩
  · rw [upperHex_length, hmacSHA256_length]
  · intro ch hch
    simp only [Spec.upperHex, List.mem_flatMap, List.mem_cons, List.mem_singleton,
      List.not_mem_nil, or_false] at hch
    obtain ⟨v, hv, h | h⟩ := hch
    · have := hmacSHA256_lt _ _ v hv
      rw [h]
      exact digit_mem _ (by omega)
    · rw [h]
      exact digit_mem _ (Nat.mod_lt _ (by norm_num))

theorem digit_inj : ∀ i, i < 16 → ∀ j, j < 16 → Spec.digit i = Spec.digit j → i = j := by
  intro i hi j hj h
  simp only [Spec.digit] at h
  split_ifs at h <;> omega

theorem upperHex_inj (d₁ d₂ : List Nat) (h₁ : ∀ b ∈ d₁, b < 256) (h₂ : ∀ b ∈ d₂, b < 256)
    (h : Spec.upperHex d₁ = Spec.upperHex d₂) : d₁ = d₂ := by
  induction d₁ generalizing d₂ with
  | nil =>
    cases d₂ with
    | nil => rfl
    | cons w d₂ => simp [Spec.upperHex] at h
  | cons v d₁ ih =>
    cases d₂ with
    | nil => simp [Spec.upperHex] at h
    | cons w d₂ =>
      have hv : v < 256 := h₁ v (List.mem_cons_self _ _)
      have hw : w < 256 := h₂ w (List.mem_cons_self _ _)
      simp only [Spec.upperHex, List.flatMap_cons, List.cons_append, List.nil_append,
        List.cons.injEq] at h
      obtain ⟨ha, hb, hrest⟩ := h
      have e1 := digit_inj _ (by omega) _ (by omega) ha
      have e2 := digit_inj _ (Nat.mod_lt _ (by norm_num)) _ (Nat.mod_lt _ (by norm_num)) hb
      have hvw : v = w := by omega
      have := ih d₂ (fun b hb => h₁ b (List.mem_cons_of_mem _ hb))
        (fun b hb => h₂ b (List.mem_cons_of_mem _ hb)) hrest
      rw [hvw, this]

theorem Signature_eq_iff (c : Client) (api₁ api₂ : GoString) (v₁ v₂ : Values)
    (b₁ b₂ : Option GoString) :
    c.Signature api₁ v₁ b₁ = c.Signature api₂ v₂ b₂
      ↔ hmacSHA256 c.secret (Client.signed api₁ v₁)
          = hmacSHA256 c.secret (Client.signed api₂ v₂) := by
  rw [Signature_eq_upperHex, Signature_eq_upperHex]
  constructor
  · exact upperHex_inj _ _ (hmacSHA256_lt _ _) (hmacSHA256_lt _ _)
  · intro h; rw [h]

theorem index_Set_self (v : Values) (k x : GoString) : (v.Set k x).index k = [x] := by
  induction v with
  | nil => simp [Values.Set, Values.index]
  | cons e rest ih =>
    obtain ⟨k', vs⟩ := e
    simp only [Values.Set]
    split
    · simp [Values.index]
    · rename_i h
      simp only [Values.index, h, if_false]
      exact ih

theorem index_Set_ne (v : Values) {k key : GoString} (x : GoString) (h : k ≠ key) :
    (v.Set k x).index key = v.index key := by
  induction v with
  | nil => simp [Values.Set, Values.index, h]
  | cons e rest ih =>
    obtain ⟨k', vs⟩ := e
    simp only [Values.Set]
    split
    · rename_i hk
      subst hk
      simp [Values.index, h]
    · simp only [Values.index, ih]

theorem mem_keys_Set (v : Values) (k x key : GoString) :
    key ∈ (v.Set k x).keys ↔ key = k ∨ key ∈ v.keys := by
  induction v with
  | nil => simp [Values.Set, Values.keys]
  | cons e rest ih =>
    obtain ⟨k', vs⟩ := e
    simp only [Values.Set]
    split
    · rename_i hk
      subst hk
      simp [Values.keys]
    · simp only [Values.keys, List.map_cons, List.mem_cons] at ih ⊢
      rw [ih]
      tauto

theorem not_mem_keys_Set {v : Values} {k key x : GoString} (h1 : key ≠ k)
    (h2 : key ∉ v.keys) : key ∉ (v.Set k x).keys := by
  rw [mem_keys_Set]
  exact fun h => h.elim h1 h2

theorem Del_Set_of_not_mem (v : Values) (k x : GoString) (h : k ∉ v.keys) :
    (v.Set k x).Del k = v := by
  induction v with
  | nil => simp [Values.Set, Values.Del]
  | cons e rest ih =>
    obtain ⟨k', vs⟩ := e
    simp only [Values.keys, List.map_cons, List.mem_cons, not_or] at h
    have h1 : ¬ k' = k := fun h' => h.1 h'.symm
    simp only [Values.Set, h1, if_false]
    have ih2 := ih h.2
    simp only [Values.Del] at ih2 ⊢
    rw [List.filter_cons_of_pos (by simpa using h1), ih2]

theorem wrapInt64_of_range {x : Int} (h1 : -2 ^ 63 ≤ x) (h2 : x < 2 ^ 63) : wrapInt64 x = x := by
  unfold wrapInt64
  have : (x + 2 ^ 63) % 2 ^ 64 = x + 2 ^ 63 := Int.emod_eq_of_lt (by omega) (by omega)
  omega

/-- The parameters of a request with body before `sign` is set. -/
theorem NewRequest_fields (c : Client) (now : Time) (payload : GoString) :
    str "sign" ∉ (Client.NewRequest.fields c now payload).keys ∧
      (Client.NewRequest.fields c now payload).index (str "payload") = [payload] ∧
      (Client.NewRequest.fields c now payload).index (str "sign_method") = [str "sha256"] ∧
      (Client.NewRequest.fields c now payload).index (str "timestamp") = [timestamp now] ∧
      (Client.NewRequest.fields c now payload).index (str "app_key") = [c.appKey] ∧
      (c.accessToken ≠ [] →
        (Client.NewRequest.fields c now payload).index (str "access_token") = [c.accessToken]) ∧
      (c.accessToken = [] → str "access_token" ∉ (Client.NewRequest.fields c now payload).keys) := by
  by_cases htok : c.accessToken = []
  · simp only [Client.NewRequest.fields, htok, ne_eq, not_true_eq_false, if_false]
    refine ⟨?_, ?_, ?_, ?_, ?_, ?_, ?_⟩
    · exact not_mem_keys_Set (by decide) (not_mem_keys_Set (by decide) (not_mem_keys_Set
        (by decide) (not_mem_keys_Set (by decide) (List.not_mem_nil _))))
    · rw [index_Set_ne _ _ (by decide), index_Set_ne _ _ (by decide),
        index_Set_ne _ _ (by decide), index_Set_self]
    · rw [index_Set_ne _ _ (by decide), index_Set_ne _ _ (by decide), index_Set_self]
    · rw [index_Set_ne _ _ (by decide), index_Set_self]
    · rw [index_Set_self]
    · intro h; exact h.elim
    · intro _
      exact not_mem_keys_Set (by decide) (not_mem_keys_Set (by decide) (not_mem_keys_Set
        (by decide) (not_mem_keys_Set (by decide) (List.not_mem_nil _))))
  · simp only [Client.NewRequest.fields, htok, ne_eq, not_false_eq_true, if_true]
    refine ⟨?_, ?_, ?_, ?_, ?_, ?_, ?_⟩
    · exact not_mem_keys_Set (by decide) (not_mem_keys_Set (by decide) (not_mem_keys_Set
        (by decide) (not_mem_keys_Set (by decide) (not_mem_keys_Set (by decide)
        (List.not_mem_nil _)))))
    · rw [index_Set_ne _ _ (by decide), index_Set_ne _ _ (by decide),
        index_Set_ne _ _ (by decide), index_Set_ne _ _ (by decide), index_Set_self]
    · rw [index_Set_ne _ _ (by decide), index_Set_ne _ _ (by decide),
        index_Set_ne _ _ (by decide), index_Set_self]
    · rw [index_Set_ne _ _ (by decide), index_Set_ne _ _ (by decide), index_Set_self]
    · rw [index_Set_ne _ _ (by decide), index_Set_self]
    · intro _; rw [index_Set_self]
    · intro h; exact h.elim

/-- The query of a request without body before `sign` is set. -/
theorem Do_fields (c : Client) (now : Time) (q : Values) :
    (str "sign" ∉ q.keys → str "sign" ∉ (Client.Do.fields c now q).keys) ∧
      (Client.Do.fields c now q).index (str "sign_method") = [str "sha256"] ∧
      (Client.Do.fields c now q).index (str "timestamp") = [timestamp now] ∧
      (Client.Do.fields c now q).index (str "app_key") = [c.appKey] ∧
      (c.accessToken ≠ [] →
        (Client.Do.fields c now q).index (str "access_token") = [c.accessToken]) := by
  by_cases htok : c.accessToken = []
  · simp only [Client.Do.fields, htok, ne_eq, not_true_eq_false, if_false]
    refine ⟨?_, ?_, ?_, ?_, ?_⟩
    · intro hq
      exact not_mem_keys_Set (by decide) (not_mem_keys_Set (by decide) (not_mem_keys_Set
        (by decide) hq))
    · rw [index_Set_ne _ _ (by decide), index_Set_ne _ _ (by decide), index_Set_self]
    · rw [index_Set_ne _ _ (by decide), index_Set_self]
    · rw [index_Set_self]
    · intro h; exact h.elim
  · simp only [Client.Do.fields, htok, ne_eq, not_false_eq_true, if_true]
    refine ⟨?_, ?_, ?_, ?_, ?_⟩
    · intro hq
      exact not_mem_keys_Set (by decide) (not_mem_keys_Set (by decide) (not_mem_keys_Set
        (by decide) (not_mem_keys_Set (by decide) hq)))
    · rw [index_Set_ne _ _ (by decide), index_Set_ne _ _ (by decide),
        index_Set_ne _ _ (by decide), index_Set_self]
    · rw [index_Set_ne _ _ (by decide), index_Set_ne _ _ (by decide), index_Set_self]
    · rw [index_Set_ne _ _ (by decide), index_Set_self]
    · intro _; rw [index_Set_self]

theorem httpNewRequest_some {β : Type} (lib : Lib β) (method : GoString) (u : URL)
    (body : Option GoString) (r : Request) (h : httpNewRequest lib method u body = some r) :
    r.URL = u ∧ r.Body = body := by
  unfold httpNewRequest at h
  by_cases hok : lib.httpOK (if method = [] then str "GET" else method) u = true
  · simp only [hok, if_true, Option.some.injEq] at h
    subst h
    exact ⟨rfl, rfl⟩
  · simp [hok] at h

/-- What a successful `NewRequest` with a body returns. -/
theorem NewRequest_body_ok {β : Type} (c : Client) (lib : Lib β) (now : Time)
    (method urlStr : GoString) (body : β) (req : Request)
    (h : c.NewRequest lib now method urlStr (some body) = .ok req) :
    ∃ encoded, lib.xmlEncode body = some encoded ∧
      req.Body
        = some (Client.NewRequest.params c now req.URL.Path (xmlHeader ++ encoded)).Encode := by
  unfold Client.NewRequest at h
  cases hp : lib.parse (restReference urlStr) with
  | none => simp [hp] at h
  | some u =>
    cases he : lib.xmlEncode body with
    | none => simp [hp, he] at h
    | some encoded =>
      simp only [hp, he] at h
      cases hr : httpNewRequest lib method u
          (some (Client.NewRequest.params c now u.Path (xmlHeader ++ encoded)).Encode) with
      | none => simp [hr] at h
      | some r =>
        simp only [hr, Except.ok.injEq] at h
        obtain ⟨hu, hb⟩ := httpNewRequest_some lib method u _ r hr
        subst h
        refine ⟨encoded, rfl, ?_⟩
        simp only [hu, hb]

theorem Do_outgoing_query {β : Type} (c : Client) (lib : Lib β) (now : Time) (req : Request)
    (hbody : req.Body = none) :
    (Client.Do.outgoing c lib now req).URL.RawQuery
      = (Client.Do.query c now req.URL.Path (lib.parseQuery req.URL.RawQuery)).Encode := by
  simp [Client.Do.outgoing, hbody]

theorem Do_query_sign (c : Client) (now : Time) (path : GoString) (q : Values)
    (hq : str "sign" ∉ q.keys) :
    (Client.Do.query c now path q).index (str "sign")
      = [c.Signature (TrimPrefix path (str "/rest"))
          ((Client.Do.query c now path q).Del (str "sign")) none] := by
  unfold Client.Do.query
  simp only
  rw [index_Set_self, Del_Set_of_not_mem _ _ _ ((Do_fields c now q).1 hq)]

theorem NewRequest_params_sign (c : Client) (now : Time) (path payload : GoString) :
    (Client.NewRequest.params c now path payload).index (str "sign")
      = [c.Signature (TrimPrefix path (str "/rest"))
          ((Client.NewRequest.params c now path payload).Del (str "sign")) none] := by
  unfold Client.NewRequest.params
  simp only
  rw [index_Set_self, Del_Set_of_not_mem _ _ _ (NewRequest_fields c now payload).1]
  rfl

theorem Do_query_index_ne (c : Client) (now : Time) (path : GoString) (q : Values)
    {key : GoString} (h : str "sign" ≠ key) :
    (Client.Do.query c now path q).index key = (Client.Do.fields c now q).index key := by
  unfold Client.Do.query
  exact index_Set_ne _ _ h

theorem Do_query_has_sign (c : Client) (now : Time) (path : GoString) (q : Values) :
    ∃ s, (Client.Do.query c now path q).index (str "sign") = [s] :=
  ⟨_, index_Set_self _ _ _⟩

theorem NewRequest_params_index_ne (c : Client) (now : Time) (path payload : GoString)
    {key : GoString} (h : str "sign" ≠ key) :
    (Client.NewRequest.params c now path payload).index key
      = (Client.NewRequest.fields c now payload).index key := by
  unfold Client.NewRequest.params
  exact index_Set_ne _ _ h

theorem NewRequest_params_has_sign (c : Client) (now : Time) (path payload : GoString) :
    ∃ s, (Client.NewRequest.params c now path payload).index (str "sign") = [s] :=
  ⟨_, index_Set_self _ _ _⟩

/-- C7, amended. The transmitted `sign` is the signature of the request path without its
leading `/rest` over the transmitted parameter set without `sign`: for `Client.Do` on a
request without body whose URL query carries no `sign` parameter of the caller (the set is
the query that is encoded into the URL), and for `Client.NewRequest` with a body (the set is
the one encoded into the form body). -/
theorem sign_is_Signature_of_transmitted_set {β : Type} (c : Client) (lib : Lib β)
    (now : Time) :
    (∀ (req : Request) (P : Values), req.Body = none →
        str "sign" ∉ (lib.parseQuery req.URL.RawQuery).keys →
        P = Client.Do.query c now req.URL.Path (lib.parseQuery req.URL.RawQuery) →
        (Client.Do.outgoing c lib now req).URL.RawQuery = P.Encode ∧
          P.index (str "sign")
            = [c.Signature (TrimPrefix req.URL.Path (str "/rest")) (P.Del (str "sign")) none]) ∧
    (∀ (method urlStr : GoString) (body : β) (req : Request),
        c.NewRequest lib now method urlStr (some body) = .ok req →
        ∃ P : Values, req.Body = some P.Encode ∧
          P.index (str "sign")
            = [c.Signature (TrimPrefix req.URL.Path (str "/rest")) (P.Del (str "sign")) none]) := by
  refine ⟨?_, ?_⟩
  · intro req P hbody hq hP
    subst hP
    exact ⟨Do_outgoing_query c lib now req hbody, Do_query_sign c now _ _ hq⟩
  · intro method urlStr body req h
    obtain ⟨encoded, _, hb⟩ := NewRequest_body_ok c lib now method urlStr body req h
    exact ⟨_, hb, NewRequest_params_sign c now _ _⟩

/-- C7, counterexample. `Client.Do` on the bodiless request `/rest/brands/get?sign=x`: the
`sign` that is transmitted is not the signature of the transmitted set without `sign`. -/
theorem Do_sign_is_not_Signature_when_caller_sent_sign :
    (Client.Do.outgoing testClient exampleLib clock708 requestWithSign).URL.RawQuery
        = (Client.Do.query testClient clock708 (str "/rest/brands/get")
            [(str "sign", [str "x"])]).Encode ∧
      (Client.Do.query testClient clock708 (str "/rest/brands/get")
          [(str "sign", [str "x"])]).index (str "sign")
        ≠ [testClient.Signature (str "/brands/get")
            ((Client.Do.query testClient clock708 (str "/rest/brands/get")
              [(str "sign", [str "x"])]).Del (str "sign")) none] := by
  decide!

/-- C8. Both request paths carry the mandatory parameters with the values of the client,
whatever query the caller supplied: `app_key` is the app key, `sign_method` is `sha256`,
`timestamp` and `sign` have one value each, `access_token` is the token of a client that has
one; with a body the set also has `payload`, the XML header followed by the encoded body, and
no `access_token` when the client has no token. -/
theorem mandatory_parameters_transmitted {β : Type} (c : Client) (lib : Lib β) (now : Time) :
    (∀ (req : Request) (P : Values), req.Body = none →
        P = Client.Do.query c now req.URL.Path (lib.parseQuery req.URL.RawQuery) →
        (Client.Do.outgoing c lib now req).URL.RawQuery = P.Encode ∧
          P.index (str "app_key") = [c.appKey] ∧
          P.index (str "sign_method") = [str "sha256"] ∧
          (∃ t, P.index (str "timestamp") = [t]) ∧
          (∃ s, P.index (str "sign") = [s]) ∧
          (c.accessToken ≠ [] → P.index (str "access_token") = [c.accessToken])) ∧
    (∀ (method urlStr : GoString) (body : β) (req : Request),
        c.NewRequest lib now method urlStr (some body) = .ok req →
        ∃ encoded, lib.xmlEncode body = some encoded ∧
          ∀ P : Values, P = Client.NewRequest.params c now req.URL.Path (xmlHeader ++ encoded) →
            req.Body = some P.Encode ∧
            P.index (str "app_key") = [c.appKey] ∧
            P.index (str "sign_method") = [str "sha256"] ∧
            (∃ t, P.index (str "timestamp") = [t]) ∧
            (∃ s, P.index (str "sign") = [s]) ∧
            (c.accessToken ≠ [] → P.index (str "access_token") = [c.accessToken]) ∧
            P.index (str "payload") = [xmlHeader ++ encoded] ∧
            (c.accessToken = [] → str "access_token" ∉ P.keys)) := by
  refine ⟨?_, ?_⟩
  · intro req P hbody hP
    subst hP
    obtain ⟨_, h1, h2, h3, h4⟩ := Do_fields c now (lib.parseQuery req.URL.RawQuery)
    refine ⟨Do_outgoing_query c lib now req hbody, ?_, ?_, ⟨timestamp now, ?_⟩,
      Do_query_has_sign c now _ _, ?_⟩
    · rw [Do_query_index_ne c now _ _ (by decide), h3]
    · rw [Do_query_index_ne c now _ _ (by decide), h1]
    · rw [Do_query_index_ne c now _ _ (by decide), h2]
    · intro htok
      rw [Do_query_index_ne c now _ _ (by decide), h4 htok]
  · intro method urlStr body req h
    obtain ⟨encoded, henc, hb⟩ := NewRequest_body_ok c lib now method urlStr body req h
    refine ⟨encoded, henc, ?_⟩
    intro P hP
    subst hP
    obtain ⟨_, h0, h1, h2, h3, h4, h5⟩ := NewRequest_fields c now (xmlHeader ++ encoded)
    refine ⟨hb, ?_, ?_, ⟨timestamp now, ?_⟩, NewRequest_params_has_sign c now _ _, ?_, ?_, ?_⟩
    · rw [NewRequest_params_index_ne c now _ _ (by decide), h3]
    · rw [NewRequest_params_index_ne c now _ _ (by decide), h1]
    · rw [NewRequest_params_index_ne c now _ _ (by decide), h2]
    · intro htok
      rw [NewRequest_params_index_ne c now _ _ (by decide), h4 htok]
    · rw [NewRequest_params_index_ne c now _ _ (by decide), h0]
    · intro htok
      unfold Client.NewRequest.params
      exact not_mem_keys_Set (by decide) (h5 htok)

/-- C9, amended. In both request paths the `timestamp` parameter is the decimal rendering of
1000 times the current Unix time in whole seconds (for a clock whose seconds times 1000 fit
`int64`), that is the Unix time in milliseconds rounded down to a multiple of 1000; it is the
Unix time in milliseconds itself exactly when the clock reading lies less than one
millisecond past a whole second. -/
theorem timestamp_is_Unix_seconds_times_1000 (c : Client) (now : Time) (path : GoString)
    (hrange : -2 ^ 63 ≤ now.Unix * 1000 ∧ now.Unix * 1000 < 2 ^ 63) :
    (∀ q : Values, (Client.Do.query c now path q).index (str "timestamp")
        = [Sprintf_d (now.Unix * 1000)]) ∧
    (∀ payload : GoString, (Client.NewRequest.params c now path payload).index (str "timestamp")
        = [Sprintf_d (now.Unix * 1000)]) ∧
    now.Unix * 1000 = now.UnixMilli / 1000 * 1000 ∧
    (now.Unix * 1000 = now.UnixMilli ↔ now.ns % 1000000000 < 1000000) := by
  have hts : timestamp now = Sprintf_d (now.Unix * 1000) := by
    unfold timestamp
    rw [wrapInt64_of_range hrange.1 hrange.2]
  refine ⟨?_, ?_, ?_, ?_⟩
  · intro q
    rw [Do_query_index_ne c now _ _ (by decide), (Do_fields c now q).2.2.1, hts]
  · intro payload
    rw [NewRequest_params_index_ne c now _ _ (by decide),
      (NewRequest_fields c now payload).2.2.2.1, hts]
  · unfold Time.Unix Time.UnixMilli
    omega
  · unfold Time.Unix Time.UnixMilli
    omega

/-- C9, counterexample. At the clock reading 1537324254.708 s both request paths write the
timestamp `1537324254000`, while the Unix time in milliseconds is `1537324254708`. -/
theorem timestamp_drops_milliseconds :
    (Client.Do.query testClient clock708 (str "/rest/brands/get") []).index (str "timestamp")
        = [str "1537324254000"] ∧
      (Client.NewRequest.params testClient clock708 (str "/rest/product/create")
          (xmlHeader ++ str "<Request></Request>")).index (str "timestamp")
        = [str "1537324254000"] ∧
      Sprintf_d clock708.UnixMilli = str "1537324254708" := by
  decide!

/-- C10, amended. `Token.Valid` is true exactly when the access token string is non-empty and
the current time is not after the expiry computed by `Token.ExpiresAt`: the token is still
valid at the instant of expiry itself. -/
theorem Valid_iff_token_and_not_after_expiry (t : Token) (now : Time) :
    t.Valid now = true ↔ t.AccessToken ≠ [] ∧ now.ns ≤ t.ExpiresAt.ns := by
  unfold Token.Valid Time.After
  by_cases h1 : t.AccessToken = []
  · simp [h1]
  · by_cases h2 : t.ExpiresAt.ns < now.ns
    · simp [h1, h2]
    · simp only [h1, h2, decide_False, Bool.false_eq_true, or_self, if_false, ne_eq,
        not_false_eq_true, true_and, true_iff]
      omega

/-- C10, counterexample. A token with a non-empty access token retrieved at the epoch with
`ExpiresIn = 3600` is reported valid at the very instant of its expiry, which is not strictly
before the expiry. -/
theorem Valid_at_the_instant_of_expiry :
    hourToken.ExpiresAt = ⟨3600000000000⟩ ∧
      hourToken.Valid ⟨3600000000000⟩ = true ∧
      ¬ (hourToken.AccessToken ≠ [] ∧
          Time.Before ⟨3600000000000⟩ hourToken.ExpiresAt = true) := by
  decide

/-! ## Tokens, list formatting and responses -/

theorem Valid_eq_false_of_empty (t : Token) (now : Time) (h : t.AccessToken = []) :
    t.Valid now = false := by
  simp [Token.Valid, h]

theorem Valid_iff_of_expiry (t : Token) (now : Time) (h : t.AccessToken ≠ []) :
    t.Valid now = true ↔ now.ns ≤ t.ExpiresAt.ns := by
  unfold Token.Valid Time.After
  by_cases h2 : t.ExpiresAt.ns < now.ns
  · simp only [h, h2, decide_True, or_true, if_true, Bool.false_eq_true, false_iff]
    omega
  · simp only [h, h2, decide_False, Bool.false_eq_true, or_self, if_false, true_iff]
    omega

theorem ExpiresAt_of_range (t : Token) (exp : Int)
    (h1 : -9223372036 ≤ exp) (h2 : exp ≤ 9223372036) :
    t.calculateExpires exp = t.retrievedAt.Add (1000000000 * exp) := by
  unfold Token.calculateExpires
  rw [wrapInt64_of_range (by omega) (by omega)]

/-- C11. A token with a non-empty access token and `ExpiresIn = 3600` retrieved at `T` is valid
at `T` plus 3599 seconds and invalid at `T` plus 3601 seconds; a token with an empty access
token is invalid at every time, whatever its other fields. -/
theorem Valid_around_the_hour :
    (∀ t : Token, t.AccessToken ≠ [] → t.ExpiresIn = 3600 →
        t.Valid (t.retrievedAt.Add 3599000000000) = true ∧
        t.Valid (t.retrievedAt.Add 3601000000000) = false) ∧
    (∀ (t : Token) (now : Time), t.AccessToken = [] → t.Valid now = false) := by
  refine ⟨?_, fun t now h => Valid_eq_false_of_empty t now h⟩
  intro t htok hexp
  have he : t.ExpiresAt = t.retrievedAt.Add 3600000000000 := by
    unfold Token.ExpiresAt
    rw [hexp, ExpiresAt_of_range t 3600 (by norm_num) (by norm_num)]
    rfl
  constructor
  · rw [Valid_iff_of_expiry t _ htok, he]
    simp only [Time.Add]
    omega
  · have : ¬ (t.Valid (t.retrievedAt.Add 3601000000000) = true) := by
      rw [Valid_iff_of_expiry t _ htok, he]
      simp only [Time.Add]
      omega
    simpa using this

/-- C12, amended. For a duration of at most 9223372036 seconds in absolute value (what
`time.Duration` holds), `ExpiresAt` is the retrieval time plus `ExpiresIn` seconds and
`RefreshExpiresAt` the retrieval time plus `RefreshExpiresIn` seconds; for every token each
of the two depends on the retrieval time and its own duration only. -/
theorem ExpiresAt_is_retrieval_plus_duration (t : Token) :
    (-9223372036 ≤ t.ExpiresIn ∧ t.ExpiresIn ≤ 9223372036 →
        t.ExpiresAt = t.retrievedAt.Add (1000000000 * t.ExpiresIn)) ∧
    (-9223372036 ≤ t.RefreshExpiresIn ∧ t.RefreshExpiresIn ≤ 9223372036 →
        t.RefreshExpiresAt = t.retrievedAt.Add (1000000000 * t.RefreshExpiresIn)) ∧
    (∀ u : Token, u.retrievedAt = t.retrievedAt → u.ExpiresIn = t.ExpiresIn →
        u.ExpiresAt = t.ExpiresAt) ∧
    (∀ u : Token, u.retrievedAt = t.retrievedAt → u.RefreshExpiresIn = t.RefreshExpiresIn →
        u.RefreshExpiresAt = t.RefreshExpiresAt) := by
  refine ⟨fun h => ExpiresAt_of_range t _ h.1 h.2, fun h => ExpiresAt_of_range t _ h.1 h.2,
    ?_, ?_⟩
  · intro u h1 h2
    simp only [Token.ExpiresAt, Token.calculateExpires, h1, h2]
  · intro u h1 h2
    simp only [Token.RefreshExpiresAt, Token.calculateExpires, h1, h2]

/-- C12, counterexample. With `ExpiresIn = RefreshExpiresIn = 9223372037`, a value of the
64-bit `int`, the product with `time.Second` wraps in `int64`: both expiries lie before the
retrieval time, not 9223372037 seconds after it. -/
theorem ExpiresAt_wraps_for_long_duration :
    longToken.ExpiresAt = ⟨-9223372036709551616⟩ ∧
      longToken.RefreshExpiresAt = ⟨-9223372036709551616⟩ ∧
      longToken.ExpiresAt ≠ longToken.retrievedAt.Add (1000000000 * longToken.ExpiresIn) ∧
      longToken.RefreshExpiresAt
        ≠ longToken.retrievedAt.Add (1000000000 * longToken.RefreshExpiresIn) := by
  decide

theorem SliceString_loop (total : Nat) (l : List GoString) (n : Nat) (b : GoString)
    (h : total = n + l.length) :
    (l.enumFrom n).foldl (fun builder p =>
        if (total : Int) - 1 ≠ (p.1 : Int) then builder ++ str "\"" ++ p.2 ++ str "\"" ++ str ","
        else builder ++ str "\"" ++ p.2 ++ str "\"") b
      = b ++ Spec.quotedList l := by
  induction l generalizing n b with
  | nil => simp [Spec.quotedList]
  | cons s rest ih =>
    cases rest with
    | nil =>
      have hn : (total : Int) - 1 = (n : Int) := by
        simp only [List.length_cons, List.length_nil] at h
        omega
      simp [List.enumFrom, Spec.quotedList, hn]
    | cons t rest =>
      have hn : (total : Int) - 1 ≠ (n : Int) := by
        simp only [List.length_cons] at h
        omega
      rw [List.enumFrom_cons, List.foldl_cons]
      simp only [hn, ne_eq, not_false_eq_true, if_true]
      rw [ih (n + 1) _ (by simp only [List.length_cons] at h ⊢; omega)]
      simp only [Spec.quotedList, List.append_assoc]

/-- C13. For every list of strings `SliceString` is `[`, the elements in their order, each
in double quotes and separated by single commas with no trailing comma, and `]`; the empty
list gives `[]` and the list of `test` gives `["test"]`. -/
theorem SliceString_is_bracketed_quoted_list :
    (∀ ins : List GoString, SliceString ins = str "[" ++ Spec.quotedList ins ++ str "]") ∧
      SliceString [] = str "[]" ∧
      SliceString [str "test"] = str "[\"test\"]" := by
  refine ⟨?_, by decide, by decide⟩
  intro ins
  unfold SliceString
  simp only [List.enum]
  have := SliceString_loop ins.length ins 0 (str "[") (by simp)
  simp only [ne_eq, ite_not] at this ⊢
  rw [← this]

theorem CheckResponse_success {α : Type} (json : JsonLib α) (r : Response)
    (data : GoString) (env : LazadaResponse)
    (hs : 200 ≤ r.StatusCode ∧ r.StatusCode ≤ 299) (hb : r.Body = some data)
    (hd : jsonUnmarshalEnvelope json data = .ok env) (hc : env.Code = str "0") :
    CheckResponse json r = .ok env := by
  unfold CheckResponse
  simp only [hs, and_self, if_true, hb, hd, hc]

theorem CheckResponse_application_error {α : Type} (json : JsonLib α) (r : Response)
    (data : GoString) (env : LazadaResponse)
    (hs : 200 ≤ r.StatusCode ∧ r.StatusCode ≤ 299) (hb : r.Body = some data)
    (hd : jsonUnmarshalEnvelope json data = .ok env) (hc : env.Code ≠ str "0") :
    CheckResponse json r
      = .error (.response ⟨r, env.Code, env.Typ, env.Message, env.RequestID, env.Detail⟩) := by
  unfold CheckResponse
  simp only [hs, and_self, if_true, hb, hd, hc, if_false]

theorem CheckResponse_read_error {α : Type} (json : JsonLib α) (r : Response)
    (hs : 200 ≤ r.StatusCode ∧ r.StatusCode ≤ 299) (hb : r.Body = none) :
    CheckResponse json r = .error .readBody := by
  unfold CheckResponse
  simp only [hs, and_self, if_true, hb]

theorem CheckResponse_decode_error {α : Type} (json : JsonLib α) (r : Response)
    (data : GoString) (err : JsonError)
    (hs : 200 ≤ r.StatusCode ∧ r.StatusCode ≤ 299) (hb : r.Body = some data)
    (hd : jsonUnmarshalEnvelope json data = .error err) :
    CheckResponse json r = .error (.decodeResponse err) := by
  unfold CheckResponse
  simp only [hs, and_self, if_true, hb, hd]

theorem CheckResponse_status_error {α : Type} (json : JsonLib α) (r : Response)
    (hs : ¬ (200 ≤ r.StatusCode ∧ r.StatusCode ≤ 299)) :
    ∃ e : ErrorResponse, CheckResponse json r = .error (.response e) := by
  unfold CheckResponse
  simp only [hs, if_false]
  cases r.Body with
  | none => exact ⟨_, rfl⟩
  | some data => exact ⟨_, rfl⟩

theorem CheckResponse_cases {α : Type} (json : JsonLib α) (r : Response) :
    (∃ env data, CheckResponse json r = .ok env ∧
        (200 ≤ r.StatusCode ∧ r.StatusCode ≤ 299) ∧ r.Body = some data ∧
        jsonUnmarshalEnvelope json data = .ok env ∧ env.Code = str "0") ∨
    (∃ e, CheckResponse json r = .error e ∧
        ¬ ∃ env : LazadaResponse, (200 ≤ r.StatusCode ∧ r.StatusCode ≤ 299) ∧
          (∃ data, r.Body = some data ∧ jsonUnmarshalEnvelope json data = .ok env) ∧
          env.Code = str "0") := by
  by_cases hs : 200 ≤ r.StatusCode ∧ r.StatusCode ≤ 299
  · cases hb : r.Body with
    | none =>
      right
      refine ⟨_, CheckResponse_read_error json r hs hb, ?_⟩
      rintro ⟨env, _, ⟨data, hd, _⟩, _⟩
      cases hd
    | some data =>
      cases hd : jsonUnmarshalEnvelope json data with
      | error decErr =>
        right
        refine ⟨_, CheckResponse_decode_error json r data decErr hs hb hd, ?_⟩
        rintro ⟨env, _, ⟨data2, hd2, hdec⟩, _⟩
        cases hd2
        rw [hd] at hdec
        cases hdec
      | ok env =>
        by_cases hc : env.Code = str "0"
        · left
          exact ⟨env, data, CheckResponse_success json r data env hs hb hd hc, hs, rfl, hd, hc⟩
        · right
          refine ⟨_, CheckResponse_application_error json r data env hs hb hd hc, ?_⟩
          rintro ⟨env2, _, ⟨data2, hd2, hdec⟩, hc2⟩
          cases hd2
          rw [hd] at hdec
          cases hdec
          exact hc hc2
  · right
    obtain ⟨e, he⟩ := CheckResponse_status_error json r hs
    exact ⟨_, he, fun ⟨_, h, _⟩ => hs h⟩

/-- C14. `CheckResponse` returns an envelope and no error exactly when the status is in
200..299, the body decodes as an envelope and the code of the envelope is `0`; in every
other case it returns no envelope and an error. -/
theorem CheckResponse_envelope_iff {α : Type} (json : JsonLib α) (r : Response) :
    (∀ env : LazadaResponse, CheckResponse json r = .ok env ↔
        (200 ≤ r.StatusCode ∧ r.StatusCode ≤ 299) ∧
        (∃ data, r.Body = some data ∧ jsonUnmarshalEnvelope json data = .ok env) ∧
        env.Code = str "0") ∧
    ((¬ ∃ env : LazadaResponse, (200 ≤ r.StatusCode ∧ r.StatusCode ≤ 299) ∧
          (∃ data, r.Body = some data ∧ jsonUnmarshalEnvelope json data = .ok env) ∧
          env.Code = str "0") →
      ∃ e : Error, CheckResponse json r = .error e) := by
  rcases CheckResponse_cases json r with ⟨env, data, hok, hs, hb, hd, hc⟩ | ⟨e, herr, hno⟩
  · refine ⟨?_, fun h => absurd ⟨env, hs, ⟨data, hb, hd⟩, hc⟩ h⟩
    intro env2
    constructor
    · intro h
      rw [hok] at h
      cases h
      exact ⟨hs, ⟨data, hb, hd⟩, hc⟩
    · rintro ⟨_, ⟨data2, hb2, hd2⟩, _⟩
      rw [hb] at hb2
      cases hb2
      rw [hd] at hd2
      cases hd2
      exact hok
  · refine ⟨?_, fun _ => ⟨e, herr⟩⟩
    intro env
    constructor
    · intro h
      rw [herr] at h
      cases h
    · intro h
      exact absurd ⟨env, h⟩ hno

/-- C15. For a response with status in 200..299 whose body decodes as an envelope with a code
other than `0`, `CheckResponse` returns the application error with the code, type, message,
request id and details of the envelope, and `Client.Do` returns that error with no envelope
and leaves the destination as it was. -/
theorem application_error_carries_envelope {β α : Type} (json : JsonLib α) (r : Response)
    (data : GoString) (env : LazadaResponse)
    (hs : 200 ≤ r.StatusCode ∧ r.StatusCode ≤ 299) (hb : r.Body = some data)
    (hd : jsonUnmarshalEnvelope json data = .ok env) (hc : env.Code ≠ str "0") :
    CheckResponse json r
        = .error (.response ⟨r, env.Code, env.Typ, env.Message, env.RequestID, env.Detail⟩) ∧
      ∀ (c : Client) (lib : Lib β) (now : Time) (transport : Request → Except GoString Response)
        (req : Request) (v : Dest α),
        transport (Client.Do.outgoing c lib now req) = .ok r →
        c.Do lib json now transport req v
          = (none, some (.response ⟨r, env.Code, env.Typ, env.Message, env.RequestID,
              env.Detail⟩), v) := by
  have h := CheckResponse_application_error json r data env hs hb hd hc
  refine ⟨h, ?_⟩
  intro c lib now transport req v ht
  unfold Client.Do
  simp only [ht, h]

/-- What `Client.Do` returns for a successful envelope without data and a typed destination:
the envelope together with the wrapped syntax error, the destination unchanged. -/
theorem Do_empty_data {β α : Type} (json : JsonLib α) (r : Response)
    (data : GoString) (env : LazadaResponse)
    (hs : 200 ≤ r.StatusCode ∧ r.StatusCode ≤ 299) (hb : r.Body = some data)
    (hd : jsonUnmarshalEnvelope json data = .ok env) (hc : env.Code = str "0")
    (hempty : env.Data = [])
    (c : Client) (lib : Lib β) (now : Time) (transport : Request → Except GoString Response)
    (req : Request) (x : α) (ht : transport (Client.Do.outgoing c lib now req) = .ok r) :
    c.Do lib json now transport req (.typed x)
      = (some env, some (.unmarshalStruct .unexpectedEnd), .typed x) := by
  unfold Client.Do
  simp only [ht, CheckResponse_success json r data env hs hb hd hc, jsonUnmarshal, hempty,
    if_true]
  rfl

/-- C16, the code at the failing input. For the response `200` with the body
`{"code":"0","request_id":"r1"}` (no data) and a typed destination, `Client.Do` returns the
envelope together with the error `unable to unmarshal into struct: unexpected end of JSON
input`; the destination is unchanged. -/
theorem Do_returns_error_for_empty_data :
    Client.Do testClient exampleLib exampleJson clock708 (fun _ => .ok okNoData) requestPlain
        (.typed [str "old"])
      = (some ⟨str "0", [], str "r1", [], [], []⟩, some (.unmarshalStruct .unexpectedEnd),
          .typed [str "old"]) :=
  Do_empty_data exampleJson okNoData _ _ (by decide) rfl rfl (by decide) rfl
    testClient exampleLib clock708 _ requestPlain _ rfl

/-! ## Instances of the theorems at concrete inputs -/

/-- C1 at the test vector: its keys are distinct, `brandsKeys` is strictly ascending and has
exactly the keys of the query. -/
theorem Signature_is_hmac_of_canonical_message_witness :
    (Values.keys brandsQuery).Nodup ∧ brandsKeys.Pairwise (fun a b => strLt a b = true) ∧
      testClient.Signature (str "/brands/get") brandsQuery none
        = Spec.upperHex (hmacSHA256 testClient.secret
            (Spec.message (str "/brands/get") brandsQuery brandsKeys)) :=
  ⟨by decide, by decide,
    Signature_is_hmac_of_canonical_message testClient (str "/brands/get") brandsQuery none
      brandsKeys (by decide) (by decide)
      (by intro k; simp only [brandsKeys, brandsQuery, Values.keys, List.map_cons,
            List.map_nil, List.mem_cons, List.mem_singleton, List.not_mem_nil, or_false]
          tauto)⟩

/-- C2 at the test vector and its reversal. -/
theorem Signature_perm_invariant_witness :
    (Values.keys brandsQuery).Nodup ∧
      testClient.Signature (str "/brands/get") brandsQuery none
        = testClient.Signature (str "/brands/get") brandsQuery.reverse none :=
  ⟨by decide,
    Signature_perm_invariant testClient (str "/brands/get") brandsQuery brandsQuery.reverse none
      (by decide) (List.reverse_perm brandsQuery).symm⟩

/-- C7 at a plain GET request and at a POST request with a body. -/
theorem sign_is_Signature_of_transmitted_set_witness :
    (requestPlain.Body = none ∧
      str "sign" ∉ (exampleLib.parseQuery requestPlain.URL.RawQuery).keys ∧
      (Client.Do.query testClient clock708 requestPlain.URL.Path
          (exampleLib.parseQuery requestPlain.URL.RawQuery)).index (str "sign")
        = [testClient.Signature (TrimPrefix requestPlain.URL.Path (str "/rest"))
            ((Client.Do.query testClient clock708 requestPlain.URL.Path
              (exampleLib.parseQuery requestPlain.URL.RawQuery)).Del (str "sign")) none]) ∧
    ∃ req : Request,
      testClient.NewRequest exampleLib clock708 (str "POST") (str "/product/create")
          (some (str "<Request></Request>")) = .ok req ∧
      ∃ P : Values, req.Body = some P.Encode ∧
        P.index (str "sign")
          = [testClient.Signature (TrimPrefix req.URL.Path (str "/rest"))
              (P.Del (str "sign")) none] :=
  ⟨⟨rfl, by decide,
      ((sign_is_Signature_of_transmitted_set testClient exampleLib clock708).1 requestPlain _
        rfl (by decide) rfl).2⟩,
    ⟨_, rfl,
      (sign_is_Signature_of_transmitted_set testClient exampleLib clock708).2 _ _ _ _ rfl⟩⟩

/-- C8 at a plain GET request and at a POST request with a body. -/
theorem mandatory_parameters_transmitted_witness :
    (requestPlain.Body = none ∧
      (Client.Do.query testClient clock708 requestPlain.URL.Path
          (exampleLib.parseQuery requestPlain.URL.RawQuery)).index (str "app_key")
        = [testClient.appKey]) ∧
    ∃ req : Request,
      testClient.NewRequest exampleLib clock708 (str "POST") (str "/product/create")
          (some (str "<Request></Request>")) = .ok req ∧
      ∃ encoded, exampleLib.xmlEncode (str "<Request></Request>") = some encoded ∧
        (Client.NewRequest.params testClient clock708 req.URL.Path
            (xmlHeader ++ encoded)).index (str "payload") = [xmlHeader ++ encoded] :=
  ⟨⟨rfl,
      ((mandatory_parameters_transmitted testClient exampleLib clock708).1 requestPlain _
        rfl rfl).2.1⟩,
    ⟨_, rfl,
      ((mandatory_parameters_transmitted testClient exampleLib clock708).2 _ _ _ _ rfl).imp
        (fun _ h => ⟨h.1, (h.2 _ rfl).2.2.2.2.2.2.1⟩)⟩⟩

/-- C9 at the clock reading 1537324254.708 s, and at 1537324254.0005 s, where the value
written is the Unix time in milliseconds. -/
theorem timestamp_is_Unix_seconds_times_1000_witness :
    (-2 ^ 63 ≤ clock708.Unix * 1000 ∧ clock708.Unix * 1000 < 2 ^ 63) ∧
      (Client.Do.query testClient clock708 (str "/rest/brands/get") []).index (str "timestamp")
        = [Sprintf_d (clock708.Unix * 1000)] ∧
      Time.Unix ⟨1537324254000500000⟩ * 1000 = Time.UnixMilli ⟨1537324254000500000⟩ :=
  ⟨by decide,
    (timestamp_is_Unix_seconds_times_1000 testClient clock708 (str "/rest/brands/get")
      (by decide)).1 [],
    (timestamp_is_Unix_seconds_times_1000 testClient ⟨1537324254000500000⟩
      (str "/rest/brands/get") (by decide)).2.2.2.2 (by decide)⟩

/-- C11 at a token retrieved at the epoch. -/
theorem Valid_around_the_hour_witness :
    hourToken.AccessToken ≠ [] ∧ hourToken.ExpiresIn = 3600 ∧
      hourToken.Valid (hourToken.retrievedAt.Add 3599000000000) = true ∧
      hourToken.Valid (hourToken.retrievedAt.Add 3601000000000) = false :=
  ⟨by decide, rfl, Valid_around_the_hour.1 hourToken (by decide) rfl⟩

/-- C12 at a token retrieved at the epoch with 3600 seconds. -/
theorem ExpiresAt_is_retrieval_plus_duration_witness :
    (-9223372036 ≤ hourToken.ExpiresIn ∧ hourToken.ExpiresIn ≤ 9223372036) ∧
      hourToken.ExpiresAt = hourToken.retrievedAt.Add (1000000000 * hourToken.ExpiresIn) :=
  ⟨by decide, (ExpiresAt_is_retrieval_plus_duration hourToken).1 (by decide)⟩

/-- C14 at a response with status 200 and code `0`, and at a response with status 500. -/
theorem CheckResponse_envelope_iff_witness :
    CheckResponse exampleJson okNoData = .ok ⟨str "0", [], str "r1", [], [], []⟩ ∧
      ∃ e : Error, CheckResponse exampleJson ⟨500, some []⟩ = .error e :=
  ⟨((CheckResponse_envelope_iff exampleJson okNoData).1 _).2
      ⟨by decide, ⟨_, rfl, rfl⟩, by decide⟩,
    (CheckResponse_envelope_iff exampleJson ⟨500, some []⟩).2
      (fun ⟨_, h, _⟩ => absurd h.2 (by decide))⟩

/-- C15 at a response with status 200, code `1` and the message `bad`. -/
theorem application_error_carries_envelope_witness :
    CheckResponse exampleJson appError
        = .error (.response ⟨appError, str "1", [], str "bad", [], []⟩) ∧
      Client.Do testClient exampleLib exampleJson clock708 (fun _ => .ok appError) requestPlain
          (.typed [str "old"])
        = (none, some (.response ⟨appError, str "1", [], str "bad", [], []⟩),
            .typed [str "old"]) :=
  ⟨(application_error_carries_envelope (β := GoString) exampleJson appError _
      ⟨str "1", [], [], [], str "bad", []⟩ (by decide) rfl rfl (by decide)).1,
    (application_error_carries_envelope exampleJson appError _
      ⟨str "1", [], [], [], str "bad", []⟩ (by decide) rfl rfl (by decide)).2
      testClient exampleLib clock708 _ requestPlain _ rfl⟩

end Lazada
